import Mathlib

/-!
Verification of the `language_evolution_toolkit` rule engine.

The Python sources are shallowly embedded below.  Python strings are
represented as `List Char` (`Str`), Python dictionaries as insertion-ordered
association lists with last-write-wins update (`dictInsert` / `buildDict`),
and fallible constructors as `Except String _`.  Every definition is a direct
translation of the corresponding function in
`language_evolution_toolkit/{utils,phones,phonemes,transliterator,phonological_rules}.py`,
except where a doc comment says the definition is modelled from the spec
(the `CustomTransliterator` class and the external IPA descriptor lookup are
not part of the sources).
-/

deriving instance DecidableEq for Except

/-- Python strings are embedded as lists of characters. -/
abbrev Str := List Char

/-- Fuel-bounded body of `pyReplace` (structural recursion on the fuel; one
unit of fuel per character of the scanned string always suffices, since every
step consumes at least one character). -/
def pyReplaceAux (old new : Str) : Nat → Str → Str
  | 0, s => s
  | fuel + 1, s =>
    match s with
    | [] => []
    | c :: rest =>
      if old ≠ [] ∧ old.isPrefixOf (c :: rest) then
        new ++ pyReplaceAux old new fuel ((c :: rest).drop old.length)
      else
        c :: pyReplaceAux old new fuel rest

/-- Python `str.replace(old, new)`: replace every non-overlapping occurrence
of `old`, scanning left to right, without rescanning replaced text.
(The `old = []` case of Python inserts `new` everywhere; it is never reached
by the embedded code, which only replaces non-empty patterns.) -/
def pyReplace (old new s : Str) : Str := pyReplaceAux old new s.length s

/-- Fuel-bounded body of `pyCount`. -/
def pyCountAux (pat : Str) : Nat → Str → Nat
  | 0, _ => 0
  | fuel + 1, s =>
    match s with
    | [] => 0
    | c :: rest =>
      if pat ≠ [] ∧ pat.isPrefixOf (c :: rest) then
        1 + pyCountAux pat fuel ((c :: rest).drop pat.length)
      else
        pyCountAux pat fuel rest

/-- Python `str.count(pat)` for a non-empty `pat`: the number of
non-overlapping occurrences, counted left to right. -/
def pyCount (pat s : Str) : Nat := pyCountAux pat s.length s

/-- Fuel-bounded body of `pySplit`. -/
def pySplitAux (pat : Str) : Nat → Str → List Str
  | 0, s => [s]
  | fuel + 1, s =>
    match s with
    | [] => [[]]
    | c :: rest =>
      if pat ≠ [] ∧ pat.isPrefixOf (c :: rest) then
        [] :: pySplitAux pat fuel ((c :: rest).drop pat.length)
      else
        match pySplitAux pat fuel rest with
        | hd :: tl => (c :: hd) :: tl
        | [] => [[c]]

/-- Python `str.split(sep)` for a non-empty separator: split at every
non-overlapping occurrence, left to right.  `''.split(sep) = ['']`. -/
def pySplit (pat s : Str) : List Str := pySplitAux pat s.length s

/-- Python `re.split` on a single-character alternation (such as
`re.split('\x7b|\x7d', s)`), and `str.split(c)` for one character:
split at every character satisfying `p`. -/
def pySplitOnPred (p : Char → Bool) : Str → List Str
  | [] => [[]]
  | c :: rest =>
    if p c then
      [] :: pySplitOnPred p rest
    else
      match pySplitOnPred p rest with
      | hd :: tl => (c :: hd) :: tl
      | [] => [[c]]

/-- Python `str.split(',')`. -/
def pySplitComma (s : Str) : List Str := pySplitOnPred (fun c => c == ',') s

/-- Python `str.strip(chars)`: remove every leading and trailing character
belonging to `chars`. -/
def pyStrip (chars : List Char) (s : Str) : Str :=
  ((s.dropWhile (fun c => c ∈ chars)).reverse.dropWhile (fun c => c ∈ chars)).reverse

/-- Python `','.join(items)`. -/
def joinComma (items : List Str) : Str := List.intercalate [','] items

/-- One assignment `d[k] = v` on a Python dictionary represented as an
insertion-ordered association list: an existing key keeps its position and
gets the new value, a new key is appended. -/
def dictInsert {α β : Type} [BEq α] (d : List (α × β)) (k : α) (v : β) : List (α × β) :=
  if d.any (fun p => p.1 == k) then
    d.map (fun p => if p.1 == k then (k, v) else p)
  else
    d ++ [(k, v)]

/-- Building a Python dictionary from a sequence of key-value pairs
(insertion order, later assignments to the same key overwrite). -/
def buildDict {α β : Type} [BEq α] (l : List (α × β)) : List (α × β) :=
  l.foldl (fun d p => dictInsert d p.1 p.2) []

/-- Python `str.translate` with a `str.maketrans` table mapping single
characters to replacement strings: characters not in the table pass through. -/
def translateChars (table : List (Char × Str)) (s : Str) : Str :=
  (s.map (fun c =>
    match table.find? (fun q => q.1 == c) with
    | some q => q.2
    | none => [c])).flatten

/-- Scanner state for `findSpans`: `none` outside a span, `some buf` inside a
span whose content so far is `buf`. -/
def findSpansAux (op cl : Char) : Option Str → Str → List Str
  | none, [] => []
  | some _, [] => []
  | none, c :: rest =>
    if c = op then findSpansAux op cl (some []) rest
    else findSpansAux op cl none rest
  | some buf, c :: rest =>
    if c = cl then (op :: buf ++ [cl]) :: findSpansAux op cl none rest
    else findSpansAux op cl (some (buf ++ [c])) rest

/-- Python `re.findall` for the non-greedy bracket pattern (such as
`'\\[.*?\\]'`): every non-overlapping span from an opening bracket to the
nearest closing bracket, scanning left to right. -/
def findSpans (op cl : Char) (s : Str) : List Str := findSpansAux op cl none s

/-- `numpy.unique` on a list of strings: the distinct elements in sorted
order. -/
def npUnique (l : List Str) : List Str :=
  (List.insertionSort (fun a b => a ≤ b) l).dedup

/-- Modelled from the spec: the IPA-character-to-descriptor lookup
(`ipapy.UNICODE_TO_IPA[ch].descriptors`) is an external data source, out of
scope per spec section 1 and not under `src/`.  The table below fixes the
feature labels of the characters exercised by the claims, matching the
documented examples in `phones.py` (for instance `p` maps to bilabial,
consonant, plosive, voiceless and the aspiration diacritic to aspirated,
diacritic); `g` (U+0067) and the IPA script `ɡ` (U+0261) carry identical
labels, as in ipapy.  Unknown characters return `none` (Python `KeyError`). -/
def unicodeDescriptors (c : Char) : Option (List Str) :=
  if c = 'a' then some ["open".data, "front".data, "unrounded".data, "vowel".data]
  else if c = 'e' then some ["close-mid".data, "front".data, "unrounded".data, "vowel".data]
  else if c = 'i' then some ["close".data, "front".data, "unrounded".data, "vowel".data]
  else if c = 'o' then some ["close-mid".data, "back".data, "rounded".data, "vowel".data]
  else if c = 'u' then some ["close".data, "back".data, "rounded".data, "vowel".data]
  else if c = 'y' then some ["close".data, "front".data, "rounded".data, "vowel".data]
  else if c = 'p' then some ["bilabial".data, "consonant".data, "plosive".data, "voiceless".data]
  else if c = 'b' then some ["bilabial".data, "consonant".data, "plosive".data, "voiced".data]
  else if c = 't' then some ["alveolar".data, "consonant".data, "plosive".data, "voiceless".data]
  else if c = 'd' then some ["alveolar".data, "consonant".data, "plosive".data, "voiced".data]
  else if c = 'k' then some ["consonant".data, "plosive".data, "velar".data, "voiceless".data]
  else if c = 'g' then some ["consonant".data, "plosive".data, "velar".data, "voiced".data]
  else if c = 'ɡ' then some ["consonant".data, "plosive".data, "velar".data, "voiced".data]
  else if c = 'l' then
    some ["alveolar".data, "consonant".data, "lateral-approximant".data, "voiced".data]
  else if c = 'r' then some ["alveolar".data, "consonant".data, "trill".data, "voiced".data]
  else if c = 'm' then some ["bilabial".data, "consonant".data, "nasal".data, "voiced".data]
  else if c = 'n' then some ["alveolar".data, "consonant".data, "nasal".data, "voiced".data]
  else if c = 's' then
    some ["alveolar".data, "consonant".data, "sibilant-fricative".data, "voiceless".data]
  else if c = 'z' then
    some ["alveolar".data, "consonant".data, "sibilant-fricative".data, "voiced".data]
  else if c = 'ʃ' then
    some ["consonant".data, "palato-alveolar".data, "sibilant-fricative".data, "voiceless".data]
  else if c = 'h' then
    some ["consonant".data, "glottal".data, "non-sibilant-fricative".data, "voiceless".data]
  else if c = 'ʰ' then some ["aspirated".data, "diacritic".data]
  else none

/-- The `Phone` value object of `phones.py`: a transcription and the
descriptor tuple derived from it. -/
structure Phone where
  transcription : Str
  descriptors : List Str
deriving DecidableEq

/-- `Phone.__init__` with `Phone._set_ipa_chars` and `Phone._set_descriptors`:
descriptors of every character are concatenated in order, every occurrence of
the label `diacritic` is removed (the `while ... remove` loop), and the result
is sorted.  A character absent from the lookup raises (`KeyError`). -/
def mkPhone (transcription : Str) : Except String Phone :=
  match transcription.mapM unicodeDescriptors with
  | none => Except.error "KeyError: character is not a recognized IPA character"
  | some descriptorLists =>
    Except.ok
      ⟨transcription,
       List.insertionSort (fun a b => a ≤ b)
         (descriptorLists.flatten.filter (fun d => d ≠ "diacritic".data))⟩

/-- `utils.check_descriptors`: one boolean per wanted descriptor, namely
membership of the token (with every leading `!` removed, Python
`lstrip('!')`) in the target list, XOR-ed with whether the token started
with `!`. -/
def check_descriptors (wanted_descriptors target_descriptors : List Str) : List Bool :=
  let flipping_list := wanted_descriptors.map (fun d => decide (d.head? = some '!'))
  let stripped := wanted_descriptors.map (fun d => d.dropWhile (fun c => c == '!'))
  (flipping_list.zip stripped).map
    (fun fd => xor (decide (fd.2 ∈ target_descriptors)) fd.1)

/-- `Phone.has_descriptors`: `all` of `check_descriptors` for
`exact_match = true`, `any` for `false`. -/
def Phone.has_descriptors (p : Phone) (descriptors : List Str) (exact_match : Bool) : Bool :=
  if exact_match then (check_descriptors descriptors p.descriptors).all id
  else (check_descriptors descriptors p.descriptors).any id

/-- `Phone.__eq__`: phones are compared by their descriptors alone (the
class-name check always succeeds between two `Phone` values). -/
def phoneEq (p q : Phone) : Bool := p.descriptors == q.descriptors

/-- `Phone.__hash__` is `hash(self.descriptors)`: a deterministic function of
the descriptor tuple only, modelled by a polynomial fold. -/
def strHashAcc (s : Str) : Nat := s.foldl (fun a c => a * 131 + c.toNat) 7
def phoneHash (p : Phone) : Nat :=
  p.descriptors.foldl (fun a d => a * 1000003 + strHashAcc d) 5381

/-- `utils.sort_by_element_attribute` keyed on `transcription` (Python sorts
the list of `(attribute, item)` pairs; the embedded code never sorts two
items with equal transcriptions, so sorting by the key alone is faithful). -/
def sortPhonesByTranscription (l : List Phone) : List Phone :=
  List.insertionSort (fun p q => p.transcription ≤ q.transcription) l

/-- The de-duplication loop shared by `Phoneme._assure_allophone_uniqueness`
and `PhonemeCatalog._assure_allophone_uniqueness`: keep the first occurrence
under the given equality. -/
def assureUnique {α : Type} (eqv : α → α → Bool) (l : List α) : List α :=
  l.foldl (fun acc a => if acc.any (eqv a) then acc else acc ++ [a]) []

/-- The `Phoneme` object of `phonemes.py`: a transcription and its ordered
allophone tuple (the derived descriptor sets play no part in the claims). -/
structure Phoneme where
  transcription : Str
  allophones : List Phone
deriving DecidableEq

/-- `Phoneme.__eq__`: phonemes are compared by their allophone tuples, each
allophone compared by `Phone.__eq__` (descriptors only). -/
def phonemeEq (p q : Phoneme) : Bool :=
  p.allophones.length == q.allophones.length &&
    (p.allophones.zip q.allophones).all (fun x => phoneEq x.1 x.2)

/-- `Phoneme.__init__` with allophones given as transcriptions: an empty list
(Python `if not allophones`) defaults to the phoneme's own transcription;
allophones are built with `Phone`, sorted by transcription, and de-duplicated
by `Phone.__eq__` keeping the first occurrence. -/
def mkPhoneme (transcription : Str) (allophones : List Str) : Except String Phoneme :=
  let symbols := if allophones.isEmpty then [transcription] else allophones
  match symbols.mapM mkPhone with
  | Except.error e => Except.error e
  | Except.ok phones =>
    Except.ok ⟨transcription, assureUnique phoneEq (sortPhonesByTranscription phones)⟩

/-- The `PhonemeCatalog` of `phonemes.py`: the sorted, de-duplicated phoneme
tuple (its derived `phones` list is recomputed by `catalogPhones`). -/
structure PhonemeCatalog where
  phonemes : List Phoneme
deriving DecidableEq

/-- One entry of the iterable accepted by `PhonemeCatalog.__init__`: a bare
transcription string, or an already-built `Phoneme`. -/
inductive CatalogEntry where
  | sym (s : Str)
  | phon (p : Phoneme)

/-- `PhonemeCatalog.__init__`: normalize every entry to a `Phoneme`, fail on
an empty list, sort by transcription, de-duplicate by `Phoneme.__eq__`
keeping the first occurrence. -/
def mkPhonemeCatalog (entries : List CatalogEntry) : Except String PhonemeCatalog :=
  match entries.mapM (fun e =>
      match e with
      | CatalogEntry.sym s => mkPhoneme s []
      | CatalogEntry.phon p => Except.ok p) with
  | Except.error e => Except.error e
  | Except.ok phonemes =>
    if phonemes.isEmpty then Except.error "Phoneme list can not be empty."
    else
      Except.ok
        ⟨assureUnique phonemeEq
          (List.insertionSort (fun p q => p.transcription ≤ q.transcription) phonemes)⟩

/-- `PhonemeCatalog._set_phones`: walk the phonemes in order, appending each
allophone not already present under `Phone.__eq__`. -/
def catalogPhones (pc : PhonemeCatalog) : List Phone :=
  pc.phonemes.foldl
    (fun acc ph =>
      ph.allophones.foldl
        (fun acc2 a => if acc2.any (phoneEq a) then acc2 else acc2 ++ [a]) acc)
    []

/-- `PhonemeCatalog.find_phones_with_descriptors`: the phones of the catalog
whose descriptors satisfy `has_descriptors`. -/
def find_phones_with_descriptors (pc : PhonemeCatalog) (descriptors : List Str)
    (exact_match : Bool) : List Phone :=
  (catalogPhones pc).filter (fun p => p.has_descriptors descriptors exact_match)

/-- A mapping entry viewed as a single-character-source table row (`None`
when the source has more than one character). -/
def sourceKeyOfPair (p : Str × Str) : Option (Char × Str) :=
  match p.1 with
  | [c] => some (c, p.2)
  | _ => none

/-- A mapping entry viewed as a single-character-target table row for the
reverse direction. -/
def targetKeyOfPair (p : Str × Str) : Option (Char × Str) :=
  match p.2 with
  | [c] => some (c, p.1)
  | _ => none

/-- The test `len(source_chars) != 1` of the bucketing loop. -/
def hasMultiCharSource (p : Str × Str) : Bool := p.1.length != 1

/-- The test `len(target_chars) != 1` of the bucketing loop. -/
def hasMultiCharTarget (p : Str × Str) : Bool := p.2.length != 1

/-- The single-character-source bucket of
`Transliterator._set_transliteration_mapping_from_dictionary`: the mapping
keys of length one, as a `maketrans` table (the mapping itself has unique
keys, so insertion order is the filter order). -/
def singleSourceTable (mapping : List (Str × Str)) : List (Char × Str) :=
  mapping.filterMap sourceKeyOfPair

/-- The multi-character-source bucket: mapping entries whose key length is
not one, in insertion order. -/
def multiSourceTable (mapping : List (Str × Str)) : List (Str × Str) :=
  mapping.filter hasMultiCharSource

/-- The single-character-target bucket for the reverse direction: a Python
dictionary keyed by the target character, so a repeated target character is
overwritten by the last source that produced it. -/
def singleTargetTable (mapping : List (Str × Str)) : List (Char × Str) :=
  buildDict (mapping.filterMap targetKeyOfPair)

/-- The multi-character-target bucket for the reverse direction, as a Python
dictionary from target string to source string. -/
def multiTargetTable (mapping : List (Str × Str)) : List (Str × Str) :=
  buildDict ((mapping.filter hasMultiCharTarget).map (fun p => (p.2, p.1)))

/-- The forward pass shared by `Transliterator._transliterate_source_to_target`
(and, per the spec, by `CustomTransliterator.translit`): every
multi-character-source replacement is applied as a global substring replace in
order, then the single-character table is applied as one bulk pass. -/
def transliterateWith (multi : List (Str × Str)) (single : List (Char × Str)) (s : Str) : Str :=
  translateChars single (multi.foldl (fun acc p => pyReplace p.1 p.2 acc) s)

/-- The `Transliterator` of `transliterator.py`, holding the
insertion-ordered items of its `mapping_dictionary`. -/
structure Transliterator where
  mappingDictionary : List (Str × Str)
deriving DecidableEq

/-- `Transliterator.__init__`: the constructor receives a Python dictionary,
embedded here by building one from the given key-value sequence. -/
def mkTransliterator (m : List (Str × Str)) : Transliterator := ⟨buildDict m⟩

/-- `Transliterator.transliterate`: forward uses the source-to-target
buckets, reverse the target-to-source buckets, each as multi-character
replacements followed by the bulk single-character pass. -/
def Transliterator.transliterate (t : Transliterator) (s : Str) (reverse : Bool) : Str :=
  if reverse then
    transliterateWith (multiTargetTable t.mappingDictionary)
      (singleTargetTable t.mappingDictionary) s
  else
    transliterateWith (multiSourceTable t.mappingDictionary)
      (singleSourceTable t.mappingDictionary) s

/-- Modelled from the spec: the `CustomTransliterator` class imported by
`phonological_rules.py` is not under `src/`.  Per spec sections 4.4 and the
glossary it is the compiled literal string-substitution engine used both to
expand rule notation and to apply compiled rules, so it holds a mapping
dictionary exactly like `Transliterator`. -/
structure CustomTransliterator where
  mapping : List (Str × Str)
deriving DecidableEq

/-- Modelled from the spec: `CustomTransliterator.translit` is the forward
transliteration pass of spec section 4.4 — first every multi-character
source-to-target replacement as a global substring replace, left to right
through the ordered list, then the single-character table as one bulk pass. -/
def CustomTransliterator.translit (t : CustomTransliterator) (s : Str) : Str :=
  transliterateWith (multiSourceTable t.mapping) (singleSourceTable t.mapping) s

/-- The `descriptor_abbreviations` dictionary of `phonological_rules.py`
(only `C`, `N` and `V` are uncommented). -/
def descriptor_abbreviations : List (Str × Str) :=
  [("C".data, "[consonant]".data), ("N".data, "[nasal]".data), ("V".data, "[vowel]".data)]

/-- The module-level `descriptor_abbreviation_transliterator`. -/
def descriptor_abbreviation_transliterator : CustomTransliterator :=
  ⟨buildDict descriptor_abbreviations⟩

/-- `process_descriptor_abbreviations`. -/
def process_descriptor_abbreviations (s : Str) : Str :=
  descriptor_abbreviation_transliterator.translit s

/-- `process_square_brackets`: find the distinct square-bracket spans
(`numpy.unique` of the regex matches), turn each into the comma-joined list
of transcriptions of the phones matching its descriptor list with
`exact_match = true`, and substitute each span by its brace list with
`str.replace`. -/
def process_square_brackets (s : Str) (pc : PhonemeCatalog) : Str :=
  let results := npUnique (findSpans '[' ']' s)
  let descriptors_list := results.map (fun r => pySplitComma (pyStrip [']', '['] r))
  let phone_lists := descriptors_list.map (fun ds =>
    (find_phones_with_descriptors pc ds true).map Phone.transcription)
  let phone_curly_bracket_lists := phone_lists.map (fun ps =>
    '\x7b' :: joinComma ps ++ ['\x7d'])
  (results.zip phone_curly_bracket_lists).foldl (fun acc rc => pyReplace rc.1 rc.2 acc) s

/-- `process_parenthesis`: each distinct parenthesis span becomes a brace
list of its comma-separated content plus an added empty alternative. -/
def process_parenthesis (s : Str) : Str :=
  let results := npUnique (findSpans '(' ')' s)
  let parenthesis_content := results.map (fun r =>
    pySplitComma (pyStrip [')', '(', '\x7d', '\x7b'] r) ++ [[]])
  let phone_curly_bracket_lists := parenthesis_content.map (fun ps =>
    '\x7b' :: joinComma ps ++ ['\x7d'])
  (results.zip phone_curly_bracket_lists).foldl (fun acc rc => pyReplace rc.1 rc.2 acc) s

/-- One iteration body of the `process_exclamation_mark` while-loop at the
first `!` found at index `i`, producing the rewritten string, or `none` when
the Python code would raise an `IndexError` (never reached by the claims). -/
def exclamationStep (pc : PhonemeCatalog) (s : Str) (i : Nat) : Option Str :=
  match s.get? (i + 1) with
  | none => none
  | some ch =>
    let available_phones := (catalogPhones pc).map Phone.transcription ++ [['#']]
    if ch = '\x7b' then
      match (s.drop (i + 2)).findIdx? (fun c => c == '\x7d') with
      | none => none
      | some j =>
        let end_index := i + 2 + j
        let substring := (s.drop (i + 2)).take j
        let char_list := substring.filter (fun c => ¬ (c = ',' ∨ c = ' '))
        let new_element :=
          '\x7b' :: joinComma (available_phones.filter
            (fun p => ¬ char_list.any (fun c => p == [c]))) ++ ['\x7d']
        some (s.take i ++ new_element ++ s.drop (end_index + 1))
    else
      let char_list := [ch]
      let new_element :=
        '\x7b' :: joinComma (available_phones.filter
          (fun p => ¬ char_list.any (fun c => p == [c]))) ++ ['\x7d']
      some (s.take i ++ new_element ++ s.drop (i + 1 + 1))

/-- The `process_exclamation_mark` while-loop, with fuel bounding the number
of iterations (the loop terminates whenever the inserted phone lists contain
no `!`, which holds for every catalog built over the descriptor lookup). -/
def processExclamationAux (pc : PhonemeCatalog) : Nat → Str → Str
  | 0, s => s
  | fuel + 1, s =>
    match s.findIdx? (fun c => c == '!') with
    | none => s
    | some i =>
      match exclamationStep pc s i with
      | none => s
      | some s2 => processExclamationAux pc fuel s2

/-- `process_exclamation_mark`, run with one unit of fuel per `!` in the
input. -/
def process_exclamation_mark (s : Str) (pc : PhonemeCatalog) : Str :=
  processExclamationAux pc (s.countP (fun c => c == '!')) s

/-- `process_curly_brackets`: split on every brace, split each part on
commas, and fold the cartesian product with concatenation. -/
def process_curly_brackets (s : Str) : List Str :=
  let chars_lists :=
    (pySplitOnPred (fun c => c == '\x7b' || c == '\x7d') s).map pySplitComma
  match chars_lists with
  | [] => []
  | hd :: tl =>
    tl.foldl (fun combinations lst =>
      combinations.flatMap (fun a => lst.map (fun b => a ++ b))) hd

/-- `process_rule_element`: the full pipeline applied to one rule substring. -/
def process_rule_element (s : Str) (pc : PhonemeCatalog) : List Str :=
  process_curly_brackets
    (process_exclamation_mark
      (process_parenthesis
        (process_square_brackets (process_descriptor_abbreviations s) pc)) pc)

/-- `get_change_dict`: the product of targets and environments gives the
before strings (target substituted for `_`); the replacement list is
broadcast when it has exactly one element, otherwise paired positionally by
combination index; the after strings substitute the paired replacement for
`_`; the result is a Python dictionary. -/
def get_change_dict (targets replacements environments : List Str) : List (Str × Str) :=
  let string_combinations := targets.flatMap (fun t => environments.map (fun e => (t, e)))
  let init_list := string_combinations.map (fun te => pyReplace ['_'] te.1 te.2)
  let reps :=
    if replacements.length = 1 then
      List.replicate string_combinations.length (replacements.headD [])
    else replacements
  let final_list := (string_combinations.zip reps).map (fun ter => pyReplace ['_'] ter.2 ter.1.2)
  buildDict (init_list.zip final_list)

/-- `extract_rule_target_string`. -/
def extract_rule_target_string (rule : Str) : Except String Str :=
  let arrow_count := pyCount "->".data rule
  if arrow_count = 0 then Except.ok []
  else if arrow_count = 1 then
    Except.ok (pyReplace [' '] [] ((pySplit "->".data rule).headD []))
  else Except.error "rule has more than one arrow"

/-- `extract_rule_replacement_string`. -/
def extract_rule_replacement_string (rule : Str) : Except String Str :=
  let arrow_count := pyCount "->".data rule
  let slash_count := pyCount "/".data rule
  if arrow_count = 0 ∧ slash_count = 1 then
    Except.ok (pyReplace [' '] [] ((pySplit "/".data rule).headD []))
  else if arrow_count = 1 ∧ slash_count = 0 then
    Except.ok (pyReplace [' '] [] ((pySplit "->".data rule).getD 1 []))
  else if arrow_count = 1 ∧ slash_count = 1 then
    Except.ok
      (pyReplace [' '] [] ((pySplit "/".data ((pySplit "->".data rule).getD 1 [])).headD []))
  else Except.error "rule has more than one arrow or slash"

/-- `extract_rule_environment_string`: with no slash the environment defaults
to `_`; with a slash present the whole rule must contain an underscore (the
source counts underscores of the entire rule string), and the environment is
the substring after the last slash with spaces removed. -/
def extract_rule_environment_string (rule : Str) : Except String Str :=
  let slash_count := pyCount "/".data rule
  if slash_count = 0 then Except.ok ['_']
  else
    let underscore_count := pyCount "_".data rule
    if underscore_count = 0 then
      Except.error "rule does not have an underscore in the environment"
    else Except.ok (pyReplace [' '] [] ((pySplit "/".data rule).getLastD []))

/-- The `PhonologicalRule` object: the rule string, its three parsed
substrings, and the compiled change dictionary and transliterator (both
`none` when no phoneme catalog is attached). -/
structure PhonologicalRule where
  rule : Str
  target : Str
  replacement : Str
  environment : Str
  change_dict : Option (List (Str × Str))
  change_transliterator : Option CustomTransliterator
deriving DecidableEq

/-- `PhonologicalRule.__init__` together with `_set_change_dict`: parse the
three substrings (each parse error propagates), then compile the change
dictionary when a catalog is present (`0` is removed from the target before
processing), leaving both compiled fields `None` otherwise. -/
def mkPhonologicalRule (rule : Str) (phoneme_catalog : Option PhonemeCatalog) :
    Except String PhonologicalRule :=
  match extract_rule_target_string rule with
  | Except.error e => Except.error e
  | Except.ok target =>
    match extract_rule_replacement_string rule with
    | Except.error e => Except.error e
    | Except.ok replacement =>
      match extract_rule_environment_string rule with
      | Except.error e => Except.error e
      | Except.ok environment =>
        match phoneme_catalog with
        | none => Except.ok ⟨rule, target, replacement, environment, none, none⟩
        | some pc =>
          let target_list := process_rule_element (pyReplace ['0'] [] target) pc
          let replacement_list := process_rule_element replacement pc
          let environment_list := process_rule_element environment pc
          let cd := get_change_dict target_list replacement_list environment_list
          Except.ok ⟨rule, target, replacement, environment, some cd, some ⟨cd⟩⟩

/-- The per-word body of `apply_sound_change`: wrap the word in `#` boundary
markers, run the compiled transliterator, strip the boundary markers, and
remove every residual `0`. -/
def applyWordChange (t : CustomTransliterator) (w : Str) : Str :=
  pyReplace ['0'] [] (pyStrip ['#'] (t.translit ('#' :: (w ++ ['#']))))

/-- `apply_sound_change`: iterate over the words; calling `translit` on a
`None` transliterator raises (`AttributeError`), which stops the loop at its
first iteration; otherwise collect the rewritten word and whether it differs
from the original. -/
def apply_sound_change (words : List Str) (ct : Option CustomTransliterator) :
    Except String (List Str × List Bool) :=
  match words, ct with
  | [], _ => Except.ok ([], [])
  | _ :: _, none => Except.error "AttributeError: NoneType object has no attribute translit"
  | w :: ws, some t =>
    match apply_sound_change ws (some t) with
    | Except.error e => Except.error e
    | Except.ok (new_words, did_change) =>
      Except.ok (applyWordChange t w :: new_words, (applyWordChange t w != w) :: did_change)

/-- `PhonologicalRule.apply_rule` on a list of words. -/
def PhonologicalRule.apply_rule (pr : PhonologicalRule) (words : List Str) :
    Except String (List Str × List Bool) :=
  apply_sound_change words pr.change_transliterator

/-- The catalog entries of end-to-end scenario 1: thirteen bare symbols. -/
def c1CatalogEntries : List CatalogEntry :=
  [CatalogEntry.sym "a".data, CatalogEntry.sym "e".data, CatalogEntry.sym "i".data,
   CatalogEntry.sym "o".data, CatalogEntry.sym "u".data, CatalogEntry.sym "y".data,
   CatalogEntry.sym "p".data, CatalogEntry.sym "t".data, CatalogEntry.sym "k".data,
   CatalogEntry.sym "l".data, CatalogEntry.sym "r".data, CatalogEntry.sym "m".data,
   CatalogEntry.sym "n".data]

/-- Scenario 1 end to end: build the catalog, compile `t -> r / a_#` against
it, and apply the rule to `["apa", "ata"]`. -/
def c1Result : Except String (List Str × List Bool) :=
  match mkPhonemeCatalog c1CatalogEntries with
  | Except.error e => Except.error e
  | Except.ok pc =>
    match mkPhonologicalRule ("t -> r / a_#".data) (some pc) with
    | Except.error e => Except.error e
    | Except.ok pr => pr.apply_rule ["apa".data, "ata".data]

/-- The catalog of scenario 3: the scenario-1 symbols with the phoneme `p`
carrying the two allophones `p` and `pʰ`. -/
def c2Catalog : Except String PhonemeCatalog :=
  match mkPhoneme ("p".data) ["p".data, "pʰ".data] with
  | Except.error e => Except.error e
  | Except.ok phonemeP =>
    mkPhonemeCatalog
      [CatalogEntry.sym "a".data, CatalogEntry.sym "e".data, CatalogEntry.sym "i".data,
       CatalogEntry.sym "o".data, CatalogEntry.sym "u".data, CatalogEntry.sym "y".data,
       CatalogEntry.phon phonemeP,
       CatalogEntry.sym "t".data, CatalogEntry.sym "k".data, CatalogEntry.sym "l".data,
       CatalogEntry.sym "r".data, CatalogEntry.sym "m".data, CatalogEntry.sym "n".data]

/-- Scenario 3: the rule of claim C2 compiled against `c2Catalog`. -/
def c2Compiled : Except String PhonologicalRule :=
  match c2Catalog with
  | Except.error e => Except.error e
  | Except.ok pc =>
    mkPhonologicalRule ("\x7bp,t,k\x7d[vowel] -> \x7bb,d,g\x7d[vowel]".data) (some pc)

/-- Scenario 3 applied to the single word `apa`. -/
def c2Result : Except String (List Str × List Bool) :=
  match c2Compiled with
  | Except.error e => Except.error e
  | Except.ok pr => pr.apply_rule ["apa".data]

/-- The index-aligned change dictionary that scenario 3 must compile to. -/
def c2ExpectedDict : List (Str × Str) :=
  [("pa".data, "ba".data), ("pe".data, "be".data), ("pi".data, "bi".data),
   ("po".data, "bo".data), ("pu".data, "bu".data), ("py".data, "by".data),
   ("ta".data, "da".data), ("te".data, "de".data), ("ti".data, "di".data),
   ("to".data, "do".data), ("tu".data, "du".data), ("ty".data, "dy".data),
   ("ka".data, "ga".data), ("ke".data, "ge".data), ("ki".data, "gi".data),
   ("ko".data, "go".data), ("ku".data, "gu".data), ("ky".data, "gy".data)]

/-- The value `Phone('p')` evaluates to. -/
def phonePVal : Phone :=
  ⟨"p".data, ["bilabial".data, "consonant".data, "plosive".data, "voiceless".data]⟩

/-- The value `Phone('g')` evaluates to. -/
def phoneGVal : Phone :=
  ⟨"g".data, ["consonant".data, "plosive".data, "velar".data, "voiced".data]⟩

/-- The value `Phone('ɡ')` (IPA script g, U+0261) evaluates to: a different
transcription with the same descriptors. -/
def phoneScriptGVal : Phone :=
  ⟨"ɡ".data, ["consonant".data, "plosive".data, "velar".data, "voiced".data]⟩

/-- A mapping of single-character sources to single-character targets,
embedded as the string mapping handed to `Transliterator`. -/
def charMapping (pairs : List (Char × Char)) : List (Str × Str) :=
  pairs.map (fun p => ([p.1], [p.2]))

/-- A string free of square brackets. -/
def bracketFree (s : Str) : Prop := '[' ∉ s ∧ ']' ∉ s

/-- A descriptor-class span `[content]`. -/
def sqSpan (content : Str) : Str := '[' :: content ++ [']']

/-- The brace list a span `[content]` compiles to: the transcriptions of the
catalog phones matching the comma-separated content with `exact_match =
true`, comma-joined inside braces. -/
def sqCurly (pc : PhonemeCatalog) (content : Str) : Str :=
  '\x7b' :: joinComma
    ((find_phones_with_descriptors pc (pySplitComma content) true).map Phone.transcription) ++
    ['\x7d']

/-- The catalog of the C7 counterexample: the phoneme `a` whose only
allophone is the phone `z`, followed by the phoneme `b` — its phone list is
`[z, b]`, which is not sorted. -/
def c7SquareResult : Except String Str :=
  match mkPhoneme ("a".data) ["z".data] with
  | Except.error e => Except.error e
  | Except.ok phonemeA =>
    match mkPhoneme ("b".data) [] with
    | Except.error e => Except.error e
    | Except.ok phonemeB =>
      match mkPhonemeCatalog [CatalogEntry.phon phonemeA, CatalogEntry.phon phonemeB] with
      | Except.error e => Except.error e
      | Except.ok pc => Except.ok (process_square_brackets ("[consonant]".data) pc)

/-- A one-phoneme catalog used to witness the amended C7 statement. -/
def c7WitnessCatalog : PhonemeCatalog :=
  ⟨[⟨"a".data, [⟨"a".data, ["vowel".data]⟩]⟩]⟩

/-- The value `PhonologicalRule('t -> r')` (no catalog) evaluates to. -/
def c9RuleVal : PhonologicalRule :=
  ⟨"t -> r".data, "t".data, "r".data, "_".data, none, none⟩

/-- `PhonologicalRule('t -> r')` (no catalog) applied to a word list. -/
def c9Apply (words : List Str) : Except String (List Str × List Bool) :=
  match mkPhonologicalRule ("t -> r".data) none with
  | Except.error e => Except.error e
  | Except.ok pr => pr.apply_rule words

set_option maxRecDepth 10000

theorem allMapId {α : Type} (f : α → Bool) (l : List α) : (l.map f).all id = l.all f := by
  induction l with
  | nil => rfl
  | cons hd tl ih => simp only [List.map_cons, List.all_cons, ih]; rfl

theorem anyMapId {α : Type} (f : α → Bool) (l : List α) : (l.map f).any id = l.any f := by
  induction l with
  | nil => rfl
  | cons hd tl ih => simp only [List.map_cons, List.any_cons, ih]; rfl

theorem check_descriptors_eq_map (wanted target : List Str) :
    check_descriptors wanted target =
      wanted.map (fun tok =>
        xor (decide (tok.dropWhile (fun c => c == '!') ∈ target))
          (decide (tok.head? = some '!'))) := by
  induction wanted with
  | nil => rfl
  | cons hd tl ih =>
    simp only [check_descriptors, List.map_cons, List.zip_cons_cons, List.map] at *
    exact congrArg _ ih

/-- C1 (counterexample): the spec scenario expects the rule `t -> r / a_#`
to rewrite `ata` to `ara`, but the compiled substitution `at# -> ar#`
requires a word-final `t` after `a`, which `ata` does not contain, so
`apply_rule` returns both words unchanged with flags `[false, false]` —
not `["apa", "ara"]` with `[false, true]`. -/
theorem C1_counterexample :
    c1Result ≠ Except.ok (["apa".data, "ara".data], [false, true]) := by decide

/-- C1 (amended): for the scenario-1 catalog and the rule `t -> r / a_#`,
`apply_rule` on `["apa", "ata"]` returns `["apa", "ata"]` with changed flags
`[false, false]`: the environment `a_#` compiles to the single substitution
`at# -> ar#`, which matches neither boundary-wrapped word. -/
theorem C1_amended :
    c1Result = Except.ok (["apa".data, "ata".data], [false, false]) := by decide

/-- C2: for the catalog with phoneme `p = \x7bp, pʰ\x7d` alongside the plain
vowels and consonants, the rule `\x7bp,t,k\x7d[vowel] -> \x7bb,d,g\x7d[vowel]`
compiles to the change dictionary pairing each expanded target alternative
with the replacement alternative of the same index (`pa -> ba`, ...,
`ky -> gy`), and applying it to `["apa"]` yields `["aba"]` with changed flag
`[true]`. -/
theorem C2_theorem :
    c2Compiled.map (fun pr => pr.change_dict) = Except.ok (some c2ExpectedDict)
    ∧ c2Result = Except.ok (["aba".data], [true]) := by
  constructor
  · decide
  · decide

/-- C3: each descriptor token evaluates to the membership of the token with
its leading `!` run stripped, XOR whether the token was `!`-prefixed;
`exact_match = true` requires all tokens to hold and `false` at least one;
and the three concrete policy examples of the spec hold. -/
theorem C3_theorem (p : Phone) (tokens : List Str) :
    (check_descriptors tokens p.descriptors = tokens.map (fun tok =>
        xor (decide (tok.dropWhile (fun c => c == '!') ∈ p.descriptors))
          (decide (tok.head? = some '!'))))
    ∧ (p.has_descriptors tokens true = tokens.all (fun tok =>
        xor (decide (tok.dropWhile (fun c => c == '!') ∈ p.descriptors))
          (decide (tok.head? = some '!'))))
    ∧ (p.has_descriptors tokens false = tokens.any (fun tok =>
        xor (decide (tok.dropWhile (fun c => c == '!') ∈ p.descriptors))
          (decide (tok.head? = some '!'))))
    ∧ Phone.has_descriptors ⟨[], ["plosive".data]⟩ ["!nasal".data] true = true
    ∧ Phone.has_descriptors ⟨[], ["vowel".data]⟩ ["vowel".data, "front".data] true = false
    ∧ Phone.has_descriptors ⟨[], ["vowel".data]⟩ ["vowel".data, "front".data] false = true := by
  refine ⟨check_descriptors_eq_map tokens p.descriptors, ?_, ?_, by decide, by decide, by decide⟩
  · simp only [Phone.has_descriptors, if_pos, check_descriptors_eq_map, allMapId]
  · simp only [Phone.has_descriptors, Bool.false_eq_true, if_neg, check_descriptors_eq_map,
      anyMapId, not_false_eq_true]

/-- C4 (counterexample): the rule `x_y -> r / ab` contains a `/` and its
environment substring `ab` has no `_`, yet construction succeeds, because
the source counts underscores of the whole rule string; likewise `a -> b /
_c_` with two underscores is accepted, so the "exactly one `_` in the
environment" condition of the claim is not what is enforced. -/
theorem C4_counterexample :
    (mkPhonologicalRule ("x_y -> r / ab".data) none).isOk = true
    ∧ (mkPhonologicalRule ("x_y -> r / ab".data) none).map (fun pr => pr.environment) =
        Except.ok ("ab".data)
    ∧ (mkPhonologicalRule ("a -> b / _c_".data) none).isOk = true := by
  refine ⟨by decide, by decide, by decide⟩

/-- C4 (amended): for a rule string with exactly one `->` and exactly one
`/`, construction fails with a ValueError exactly when the whole rule string
contains no `_` at all — the check counts underscores of the entire rule,
not of the environment substring, and any positive number of underscores is
accepted. -/
theorem C4_amended (rule : Str) (ha : pyCount ("->".data) rule = 1)
    (hs : pyCount ("/".data) rule = 1) :
    (∃ e, mkPhonologicalRule rule none = Except.error e) ↔ pyCount ("_".data) rule = 0 := by
  unfold mkPhonologicalRule extract_rule_target_string extract_rule_replacement_string
    extract_rule_environment_string
  simp only [ha, hs]
  by_cases h0 : pyCount ("_".data) rule = 0
  · simp [h0]
  · simp [h0]

/-- C4 (witness): the amended statement applied to `t -> r / ab`, which has
one arrow, one slash and no underscore, and is rejected. -/
theorem C4_amended_witness :
    pyCount ("->".data) ("t -> r / ab".data) = 1
    ∧ pyCount ("/".data) ("t -> r / ab".data) = 1
    ∧ ∃ e, mkPhonologicalRule ("t -> r / ab".data) none = Except.error e :=
  ⟨by decide, by decide,
    (C4_amended ("t -> r / ab".data) (by decide) (by decide)).mpr (by decide)⟩

/-- C5 (counterexample): the descriptors of `Phone('pp')` keep one copy per
contributing character — `_set_descriptors` sorts but never de-duplicates —
so the claim that the descriptor tuple contains no duplicate labels fails. -/
theorem C5_counterexample :
    mkPhone ("pp".data) = Except.ok
      ⟨"pp".data,
       ["bilabial".data, "bilabial".data, "consonant".data, "consonant".data,
        "plosive".data, "plosive".data, "voiceless".data, "voiceless".data]⟩
    ∧ ¬ List.Nodup
        ["bilabial".data, "bilabial".data, "consonant".data, "consonant".data,
         "plosive".data, "plosive".data, "voiceless".data, "voiceless".data] := by
  refine ⟨by decide, by decide⟩

/-- C6 (counterexample): the transliteration round trip fails for the
non-injective single-character mapping `a -> c, b -> c` (forward sends `a`
to `c`, and the reverse table's last write wins, sending `c` back to `b`),
and also for the injective mapping `a -> b, x -> bb` on input `ax` (the
forward image `bbb` is mis-segmented by the reverse multi-character pass,
returning `xa`). -/
theorem C6_counterexample :
    ((mkTransliterator [("a".data, "c".data), ("b".data, "c".data)]).transliterate
      ((mkTransliterator [("a".data, "c".data), ("b".data, "c".data)]).transliterate
        ("a".data) false) true = "b".data)
    ∧ ((mkTransliterator [("a".data, "b".data), ("x".data, "bb".data)]).transliterate
      ((mkTransliterator [("a".data, "b".data), ("x".data, "bb".data)]).transliterate
        ("ax".data) false) true = "xa".data) := by
  refine ⟨by decide, by decide⟩

/-- C7 (counterexample): in the catalog whose phoneme `a` has the single
allophone `z`, followed by phoneme `b`, the span `[consonant]` expands to
`\x7bz,b\x7d` — the catalog's phone enumeration order — and not to the sorted
`\x7bb,z\x7d` the claim requires. -/
theorem C7_counterexample :
    c7SquareResult = Except.ok ("\x7bz,b\x7d".data)
    ∧ "\x7bz,b\x7d".data ≠ "\x7bb,z\x7d".data := by
  refine ⟨by decide, by decide⟩

/-- C8: two phones compare equal exactly when their descriptor tuples are
equal, equal descriptor tuples give equal hashes, and the two phones built
from the distinct symbols `g` and `ɡ` (which the lookup sends to the same
descriptor set) compare equal and hash equal while their transcriptions
differ. -/
theorem C8_theorem (p q : Phone) :
    (phoneEq p q = true ↔ p.descriptors = q.descriptors)
    ∧ (p.descriptors = q.descriptors → phoneHash p = phoneHash q)
    ∧ mkPhone ("g".data) = Except.ok phoneGVal
    ∧ mkPhone ("ɡ".data) = Except.ok phoneScriptGVal
    ∧ phoneGVal.transcription ≠ phoneScriptGVal.transcription
    ∧ phoneEq phoneGVal phoneScriptGVal = true
    ∧ phoneHash phoneGVal = phoneHash phoneScriptGVal := by
  refine ⟨?_, ?_, by decide, by decide, by decide, by decide, by decide⟩
  · simp [phoneEq]
  · intro h; simp [phoneHash, h]

/-- C8 (witness): the hash implication of `C8_theorem` discharged at the two
concrete phones with equal descriptor tuples. -/
theorem C8_witness : phoneHash phoneGVal = phoneHash phoneScriptGVal :=
  (C8_theorem phoneGVal phoneScriptGVal).2.1 rfl

/-- C9 (counterexample): a rule constructed without a catalog applied to the
empty word list returns `([], [])` without raising — the loop body that
would dereference the missing transliterator never runs — so "apply_rule on
any word list raises" fails for the empty list. -/
theorem C9_counterexample :
    c9Apply [] = Except.ok ([], [])
    ∧ mkPhonologicalRule ("t -> r".data) none = Except.ok c9RuleVal
    ∧ c9RuleVal.change_transliterator = none := by
  refine ⟨by decide, by decide, by decide⟩

/-- C9 (amended): a rule successfully constructed without a phoneme catalog
has no compiled transliterator, and applying it to any non-empty word list
raises an error (the `AttributeError` of calling `translit` on `None`)
rather than returning the words unchanged. -/
theorem C9_amended (r : Str) (pr : PhonologicalRule)
    (h : mkPhonologicalRule r none = Except.ok pr) (w : Str) (ws : List Str) :
    ∃ e, pr.apply_rule (w :: ws) = Except.error e := by
  have hnone : pr.change_transliterator = none := by
    unfold mkPhonologicalRule at h
    cases h1 : extract_rule_target_string r with
    | error e => rw [h1] at h; exact absurd h (by simp)
    | ok t =>
      rw [h1] at h
      cases h2 : extract_rule_replacement_string r with
      | error e => rw [h2] at h; exact absurd h (by simp)
      | ok rep =>
        rw [h2] at h
        cases h3 : extract_rule_environment_string r with
        | error e => rw [h3] at h; exact absurd h (by simp)
        | ok env =>
          rw [h3] at h
          simp only [Except.ok.injEq] at h
          rw [← h]
  rw [PhonologicalRule.apply_rule, hnone]
  exact ⟨_, rfl⟩

/-- C9 (witness): the amended statement discharged at the concrete rule
`t -> r` with no catalog, applied to the one-word list `["hat"]`. -/
theorem C9_amended_witness :
    ∃ e, c9RuleVal.apply_rule ["hat".data] = Except.error e :=
  C9_amended ("t -> r".data) c9RuleVal (by decide) ("hat".data) []

/-- C5 (amended): every successfully constructed phone has a sorted
descriptor tuple that never contains the label `diacritic`; duplicate labels
contributed by several characters are kept (the source sorts but does not
de-duplicate). -/
theorem C5_amended (s : Str) (p : Phone) (h : mkPhone s = Except.ok p) :
    List.Sorted (fun a b => a ≤ b) p.descriptors ∧ "diacritic".data ∉ p.descriptors := by
  unfold mkPhone at h
  cases hm : s.mapM unicodeDescriptors with
  | none => rw [hm] at h; exact absurd h (by simp)
  | some descriptorLists =>
    rw [hm] at h
    simp only [Except.ok.injEq] at h
    rw [← h]
    constructor
    · exact List.sorted_insertionSort _ _
    · intro hmem
      rw [List.mem_insertionSort] at hmem
      have := List.of_mem_filter hmem
      simp at this

/-- C5 (witness): the amended statement discharged at `Phone('p')`. -/
theorem C5_amended_witness :
    mkPhone ("p".data) = Except.ok phonePVal
    ∧ (List.Sorted (fun a b => a ≤ b) phonePVal.descriptors
       ∧ "diacritic".data ∉ phonePVal.descriptors) :=
  ⟨by decide, C5_amended ("p".data) phonePVal (by decide)⟩

theorem pyReplaceAux_fuel (old new : Str) (fuel : Nat) :
    ∀ (s : Str) (fuel' : Nat), s.length ≤ fuel → s.length ≤ fuel' →
      pyReplaceAux old new fuel s = pyReplaceAux old new fuel' s := by
  induction fuel with
  | zero =>
    intro s fuel' h1 _
    have hs : s = [] := List.eq_nil_of_length_eq_zero (Nat.le_zero.mp h1)
    subst hs
    cases fuel' <;> rfl
  | succ f ih =>
    intro s fuel' h1 h2
    cases s with
    | nil => cases fuel' <;> rfl
    | cons c rest =>
      cases fuel' with
      | zero => simp at h2
      | succ f' =>
        simp only [pyReplaceAux]
        by_cases hc : old ≠ [] ∧ old.isPrefixOf (c :: rest)
        · simp only [if_pos hc]
          have hold : 1 ≤ old.length := by
            cases old with
            | nil => exact absurd rfl hc.1
            | cons a as => simp
          have hdl : ((c :: rest).drop old.length).length ≤ f := by
            simp only [List.length_drop, List.length_cons]
            simp only [List.length_cons] at h1
            omega
          have hdl' : ((c :: rest).drop old.length).length ≤ f' := by
            simp only [List.length_drop, List.length_cons]
            simp only [List.length_cons] at h2
            omega
          rw [ih _ f' hdl hdl']
        · simp only [if_neg hc]
          have hr : rest.length ≤ f := by simp only [List.length_cons] at h1; omega
          have hr' : rest.length ≤ f' := by simp only [List.length_cons] at h2; omega
          rw [ih _ f' hr hr']

theorem pyReplace_cons (old new : Str) (c : Char) (rest : Str) :
    pyReplace old new (c :: rest) =
      if old ≠ [] ∧ old.isPrefixOf (c :: rest) then
        new ++ pyReplace old new ((c :: rest).drop old.length)
      else
        c :: pyReplace old new rest := by
  show pyReplaceAux old new (rest.length + 1) (c :: rest) = _
  simp only [pyReplaceAux]
  by_cases hc : old ≠ [] ∧ old.isPrefixOf (c :: rest)
  · simp only [if_pos hc]
    have hold : 1 ≤ old.length := by
      cases old with
      | nil => exact absurd rfl hc.1
      | cons a as => simp
    have hdl : ((c :: rest).drop old.length).length ≤ rest.length := by
      simp only [List.length_drop, List.length_cons]
      omega
    rw [pyReplaceAux_fuel old new rest.length _ _ hdl (Nat.le_refl _)]
    rfl
  · simp only [if_neg hc]
    rfl

theorem pyReplace_single_nil (c0 : Char) (s : Str) :
    pyReplace [c0] [] s = s.filter (fun x => x != c0) := by
  induction s with
  | nil => rfl
  | cons c rest ih =>
    rw [pyReplace_cons]
    by_cases hc : c0 = c
    · subst hc
      have hpre : ([c0].isPrefixOf (c0 :: rest)) = true := by
        simp [List.isPrefixOf]
      simp [hpre, ih]
    · have hpre : ([c0].isPrefixOf (c :: rest)) = false := by
        simp [List.isPrefixOf]
        intro h
        exact absurd h hc
      simp only [ne_eq, hpre, Bool.false_eq_true, and_false, if_false, List.filter_cons]
      have : (c != c0) = true := by
        simp [bne_iff_ne]
        intro h
        exact hc h.symm
      rw [this, ih]
      simp

theorem pyStrip_wrap (w : Str) :
    pyStrip ['#'] ('#' :: (w ++ ['#'])) = pyStrip ['#'] w := by
  unfold pyStrip
  have hp : (fun c => decide (c ∈ ['#'])) '#' = true := by decide
  rw [List.dropWhile_cons]
  simp only [hp, if_true]
  rw [List.dropWhile_append]
  cases hw : (List.dropWhile (fun c => decide (c ∈ ['#'])) w).isEmpty with
  | true =>
    simp only [if_true]
    have h1 : List.dropWhile (fun c => decide (c ∈ ['#'])) ['#'] = [] := by decide
    have hwnil : List.dropWhile (fun c => decide (c ∈ ['#'])) w = [] :=
      List.isEmpty_iff.mp hw
    rw [h1, hwnil]
  | false =>
    simp only [Bool.false_eq_true, if_false]
    rw [List.reverse_append]
    simp only [List.reverse_cons, List.reverse_nil, List.nil_append, List.singleton_append]
    rw [List.dropWhile_cons]
    simp only [hp, if_true]

/-- C10: for every compiled transliterator, apply_sound_change returns, per
word, the transliterated boundary-wrapped word with all leading and trailing
`#` stripped and every `0` removed, flagged as changed exactly when the
result differs from the input; consequently a word containing `0`, or
beginning or ending with `#`, is returned altered and flagged changed even
when the transliterator leaves the wrapped word untouched. -/
theorem C10_theorem (ct : CustomTransliterator) (words : List Str) :
    apply_sound_change words (some ct) =
      Except.ok (words.map (applyWordChange ct),
        words.map (fun w => applyWordChange ct w != w))
    ∧ ∀ w ∈ words,
        ct.translit ('#' :: (w ++ ['#'])) = '#' :: (w ++ ['#']) →
        ('0' ∈ w ∨ w.head? = some '#' ∨ w.getLast? = some '#') →
        applyWordChange ct w ≠ w := by
  constructor
  · induction words with
    | nil => rfl
    | cons w ws ih => simp only [apply_sound_change, ih, List.map_cons]
  · intro w hw htr hcond heq
    have hpost : applyWordChange ct w = List.filter (fun x => x != '0') (pyStrip ['#'] w) := by
      unfold applyWordChange
      rw [htr, pyStrip_wrap, pyReplace_single_nil]
    rw [hpost] at heq
    have hlenf : (List.filter (fun x => x != '0') (pyStrip ['#'] w)).length ≤
        (pyStrip ['#'] w).length := List.length_filter_le _ _
    have hlen1 : (pyStrip ['#'] w).length ≤
        (w.dropWhile (fun c => decide (c ∈ ['#']))).length := by
      unfold pyStrip
      rw [List.length_reverse]
      calc ((w.dropWhile (fun c => decide (c ∈ ['#']))).reverse.dropWhile
              (fun c => decide (c ∈ ['#']))).length
          ≤ (w.dropWhile (fun c => decide (c ∈ ['#']))).reverse.length :=
            (List.dropWhile_suffix _).length_le
        _ = _ := List.length_reverse _
    have hlen2 : (w.dropWhile (fun c => decide (c ∈ ['#']))).length ≤ w.length :=
      (List.dropWhile_suffix _).length_le
    have hwlen : w.length = (List.filter (fun x => x != '0') (pyStrip ['#'] w)).length := by
      rw [heq]
    have e1 : (w.dropWhile (fun c => decide (c ∈ ['#']))).length = w.length := by omega
    have e2 : (pyStrip ['#'] w).length = w.length := by omega
    rcases hcond with h0 | hhead | hlast
    · have hno : '0' ∉ List.filter (fun x => x != '0') (pyStrip ['#'] w) := by
        intro hmem
        simpa using (List.mem_filter.mp hmem).2
      rw [heq] at hno
      exact hno h0
    · cases w with
      | nil => simp at hhead
      | cons c w' =>
        have hc : c = '#' := by simpa using hhead
        subst hc
        rw [List.dropWhile_cons] at e1
        simp only [show ((fun c => decide (c ∈ ['#'])) '#') = true from by decide, if_true] at e1
        have : (w'.dropWhile (fun c => decide (c ∈ ['#']))).length ≤ w'.length :=
          (List.dropWhile_suffix _).length_le
        simp only [List.length_cons] at e1
        omega
    · have hdw : w.dropWhile (fun c => decide (c ∈ ['#'])) = w :=
        (List.dropWhile_suffix _).eq_of_length e1
      have e2' : ((w.reverse.dropWhile (fun c => decide (c ∈ ['#']))).reverse).length =
          w.length := by
        have : pyStrip ['#'] w = (w.reverse.dropWhile (fun c => decide (c ∈ ['#']))).reverse := by
          unfold pyStrip
          rw [hdw]
        rw [← this]
        exact e2
      rw [List.length_reverse] at e2'
      have hrev : w.reverse.head? = some '#' := by
        rw [List.head?_reverse]
        exact hlast
      cases hw2 : w.reverse with
      | nil => rw [hw2] at hrev; simp at hrev
      | cons c v =>
        rw [hw2] at hrev e2'
        have hc : c = '#' := by simpa using hrev
        subst hc
        rw [List.dropWhile_cons] at e2'
        simp only [show ((fun c => decide (c ∈ ['#'])) '#') = true from by decide, if_true] at e2'
        have hv : (v.dropWhile (fun c => decide (c ∈ ['#']))).length ≤ v.length :=
          (List.dropWhile_suffix _).length_le
        have hwr : w.reverse.length = w.length := List.length_reverse _
        rw [hw2] at hwr
        simp only [List.length_cons] at hwr
        omega

/-- C10 (witness): the consequence of `C10_theorem` discharged at the empty
transliterator and the word `a0`, whose `0` is removed by the application
pass even though no substitution applies. -/
theorem C10_witness :
    CustomTransliterator.translit ⟨[]⟩ ('#' :: ("a0".data ++ ['#'])) =
        '#' :: ("a0".data ++ ['#'])
    ∧ '0' ∈ "a0".data
    ∧ applyWordChange ⟨[]⟩ ("a0".data) ≠ "a0".data :=
  ⟨by decide, by decide,
    (C10_theorem ⟨[]⟩ ["a0".data]).2 ("a0".data) (by decide) (by decide)
      (Or.inl (by decide))⟩

theorem dictInsert_of_not_mem {α β : Type} [BEq α] [LawfulBEq α]
    (d : List (α × β)) (k : α) (v : β) (h : k ∉ d.map Prod.fst) :
    dictInsert d k v = d ++ [(k, v)] := by
  unfold dictInsert
  have : d.any (fun p => p.1 == k) = false := by
    rw [List.any_eq_false]
    intro p hp
    simp only [beq_iff_eq]
    intro hk
    exact h (hk ▸ List.mem_map_of_mem Prod.fst hp)
  rw [this]
  simp

theorem buildDict_go {α β : Type} [BEq α] [LawfulBEq α] :
    ∀ (l acc : List (α × β)), ((acc ++ l).map Prod.fst).Nodup →
      l.foldl (fun d p => dictInsert d p.1 p.2) acc = acc ++ l := by
  intro l
  induction l with
  | nil => intro acc _; simp
  | cons hd tl ih =>
    intro acc h
    have hk : hd.1 ∉ acc.map Prod.fst := by
      simp only [List.map_append, List.map_cons] at h
      intro hmem
      exact (List.nodup_append.mp h).2.2 hmem (List.mem_cons_self _ _)
    simp only [List.foldl_cons]
    rw [dictInsert_of_not_mem acc hd.1 hd.2 hk]
    have hre : acc ++ [(hd.1, hd.2)] ++ tl = acc ++ hd :: tl := by simp
    rw [ih (acc ++ [(hd.1, hd.2)]) (by rw [hre]; exact h)]
    simp

theorem buildDict_eq_self {α β : Type} [BEq α] [LawfulBEq α]
    (l : List (α × β)) (h : (l.map Prod.fst).Nodup) : buildDict l = l := by
  unfold buildDict
  have := buildDict_go l [] (by simpa using h)
  simpa using this

theorem multiSourceTable_charMapping (pairs : List (Char × Char)) :
    multiSourceTable (charMapping pairs) = [] := by
  induction pairs with
  | nil => rfl
  | cons hd tl ih =>
    unfold multiSourceTable charMapping at *
    simp only [List.map_cons, List.filter_cons]
    rw [if_neg (by simp [hasMultiCharSource])]
    exact ih

theorem multiTargetTable_charMapping (pairs : List (Char × Char)) :
    multiTargetTable (charMapping pairs) = [] := by
  have hf : List.filter hasMultiCharTarget (charMapping pairs) = [] := by
    induction pairs with
    | nil => rfl
    | cons hd tl ih =>
      unfold charMapping at *
      simp only [List.map_cons, List.filter_cons]
      rw [if_neg (by simp [hasMultiCharTarget])]
      exact ih
  unfold multiTargetTable
  rw [hf]
  rfl

theorem singleSourceTable_charMapping (pairs : List (Char × Char)) :
    singleSourceTable (charMapping pairs) = pairs.map (fun p => (p.1, ([p.2] : Str))) := by
  induction pairs with
  | nil => rfl
  | cons hd tl ih =>
    unfold singleSourceTable charMapping at *
    simp only [List.map_cons, List.filterMap_cons] at *
    rw [show sourceKeyOfPair (([hd.1] : Str), ([hd.2] : Str)) =
        some (hd.1, ([hd.2] : Str)) from rfl]
    rw [ih]

theorem singleTargetTable_charMapping (pairs : List (Char × Char))
    (hvs : (pairs.map Prod.snd).Nodup) :
    singleTargetTable (charMapping pairs) = pairs.map (fun p => (p.2, ([p.1] : Str))) := by
  have hfm : List.filterMap targetKeyOfPair (charMapping pairs) =
      pairs.map (fun p => (p.2, ([p.1] : Str))) := by
    clear hvs
    induction pairs with
    | nil => rfl
    | cons hd tl ih =>
      unfold charMapping at *
      simp only [List.map_cons, List.filterMap_cons] at *
      rw [show targetKeyOfPair (([hd.1] : Str), ([hd.2] : Str)) =
          some (hd.2, ([hd.1] : Str)) from rfl]
      rw [ih]
  unfold singleTargetTable
  rw [hfm]
  apply buildDict_eq_self
  have : (List.map Prod.fst (pairs.map fun p => (p.2, ([p.1] : Str)))) =
      pairs.map Prod.snd := by
    rw [List.map_map]
    rfl
  rw [this]
  exact hvs

theorem translateChars_single (tab : List (Char × Char)) (s : Str) :
    translateChars (tab.map (fun p => (p.1, ([p.2] : Str)))) s =
      s.map (fun c =>
        match tab.find? (fun q => q.1 == c) with
        | some q => q.2
        | none => c) := by
  induction s with
  | nil => rfl
  | cons c rest ih =>
    unfold translateChars at *
    simp only [List.map_cons, List.flatten_cons] at *
    rw [ih]
    rw [List.find?_map]
    cases hf : tab.find? ((fun q : Char × Str => q.1 == c) ∘ fun p : Char × Char => (p.1, ([p.2] : Str))) with
    | none =>
      have : tab.find? (fun q => q.1 == c) = none := by
        rw [← hf]; rfl
      rw [this]
      rfl
    | some q =>
      have : tab.find? (fun q => q.1 == c) = some q := by
        rw [← hf]; rfl
      rw [this]
      rfl

theorem find?_of_mem_nodupKeys (pairs : List (Char × Char)) (c v : Char)
    (hks : (pairs.map Prod.fst).Nodup) (hmem : (c, v) ∈ pairs) :
    pairs.find? (fun q => q.1 == c) = some (c, v) := by
  induction pairs with
  | nil => simp at hmem
  | cons hd tl ih =>
    by_cases hc : hd.1 = c
    · have hv : hd = (c, v) := by
        rcases List.mem_cons.mp hmem with heq | htl
        · exact heq.symm
        · exfalso
          have : c ∈ tl.map Prod.fst := by
            simpa using List.mem_map_of_mem Prod.fst htl
          simp only [List.map_cons, List.nodup_cons] at hks
          exact hks.1 (hc ▸ this)
      rw [List.find?_cons_of_pos]
      · rw [hv]
      · simp [hc]
    · rw [List.find?_cons_of_neg]
      · apply ih
        · simp only [List.map_cons, List.nodup_cons] at hks
          exact hks.2
        · rcases List.mem_cons.mp hmem with heq | htl
          · exact absurd (congrArg Prod.fst heq.symm) hc
          · exact htl
      · simp [hc]

/-- C6 (amended): the forward-then-reverse transliteration round trip
returns the original string whenever the mapping sends distinct single
characters to distinct single characters (an injective single-character
mapping) and the input only contains source characters; with repeated
target values, or multi-character targets, the round trip can fail
(see the counterexample). -/
theorem C6_amended (pairs : List (Char × Char))
    (hks : (pairs.map Prod.fst).Nodup) (hvs : (pairs.map Prod.snd).Nodup)
    (s : Str) (hs : ∀ c ∈ s, c ∈ pairs.map Prod.fst) :
    (mkTransliterator (charMapping pairs)).transliterate
      ((mkTransliterator (charMapping pairs)).transliterate s false) true = s := by
  have hmk : (mkTransliterator (charMapping pairs)).mappingDictionary = charMapping pairs := by
    show buildDict (charMapping pairs) = charMapping pairs
    apply buildDict_eq_self
    have hkeys : (charMapping pairs).map Prod.fst =
        (pairs.map Prod.fst).map (fun c => ([c] : Str)) := by
      unfold charMapping
      rw [List.map_map, List.map_map]
      rfl
    rw [hkeys]
    exact hks.map (fun a b h => by simpa using h)
  unfold Transliterator.transliterate
  rw [hmk]
  simp only [Bool.false_eq_true, if_false, if_true]
  rw [multiSourceTable_charMapping, multiTargetTable_charMapping]
  unfold transliterateWith
  simp only [List.foldl_nil]
  rw [singleSourceTable_charMapping, singleTargetTable_charMapping pairs hvs]
  have hswap : pairs.map (fun p => (p.2, ([p.1] : Str))) =
      (pairs.map (fun p => (p.2, p.1))).map (fun q => (q.1, ([q.2] : Str))) := by
    rw [List.map_map]
    rfl
  rw [hswap, translateChars_single, translateChars_single, List.map_map]
  have hid : ∀ c ∈ s,
      ((fun c =>
          match (pairs.map (fun p => (p.2, p.1))).find? (fun q => q.1 == c) with
          | some q => q.2
          | none => c) ∘
        (fun c =>
          match pairs.find? (fun q => q.1 == c) with
          | some q => q.2
          | none => c)) c = c := by
    intro c hc
    obtain ⟨p, hp, hp1⟩ := List.mem_map.mp (hs c hc)
    have hf1 : pairs.find? (fun q => q.1 == c) = some (c, p.2) := by
      apply find?_of_mem_nodupKeys pairs c p.2 hks
      have : p = (c, p.2) := by
        cases p
        simp only at hp1
        rw [hp1]
      rw [← this]
      exact hp
    have hmem2 : (p.2, c) ∈ pairs.map (fun p => (p.2, p.1)) := by
      have : (p.2, c) = (fun p : Char × Char => (p.2, p.1)) p := by
        cases p
        simp only at hp1
        rw [hp1]
      rw [this]
      exact List.mem_map_of_mem _ hp
    have hks2 : ((pairs.map (fun p => (p.2, p.1))).map Prod.fst).Nodup := by
      rw [List.map_map]
      exact hvs
    have hf2 : (pairs.map (fun p => (p.2, p.1))).find? (fun q => q.1 == p.2) =
        some (p.2, c) := find?_of_mem_nodupKeys _ p.2 c hks2 hmem2
    simp only [Function.comp]
    rw [hf1]
    simp only
    rw [hf2]
  rw [List.map_congr_left hid]
  simp

/-- C6 (witness): the amended round trip discharged at the one-pair mapping
`a -> b` and the input `a`. -/
theorem C6_amended_witness :
    (mkTransliterator (charMapping [('a', 'b')])).transliterate
      ((mkTransliterator (charMapping [('a', 'b')])).transliterate ("a".data) false) true =
      "a".data :=
  C6_amended [('a', 'b')] (by decide) (by decide) ("a".data) (by decide)

theorem isPrefixOf_self_append (l r : Str) : l.isPrefixOf (l ++ r) = true := by
  induction l with
  | nil => simp [List.isPrefixOf]
  | cons c tl ih => simp [List.isPrefixOf, ih]

theorem isPrefixOf_head_ne (old : Str) (c p : Char) (rest : Str)
    (hh : old.head? = some c) (hcp : c ≠ p) : old.isPrefixOf (p :: rest) = false := by
  cases old with
  | nil => simp at hh
  | cons o otl =>
    have ho : o = c := by simpa using hh
    have hb : (o == p) = false := by
      simp only [beq_eq_false_iff_ne, ne_eq]
      rw [ho]
      exact hcp
    simp [List.isPrefixOf, hb]

theorem pyReplace_skip (old new pre rest : Str) (c : Char) (hh : old.head? = some c)
    (hc : c ∉ pre) : pyReplace old new (pre ++ rest) = pre ++ pyReplace old new rest := by
  induction pre with
  | nil => simp
  | cons p ps ih =>
    have hcp : c ≠ p := fun h => hc (h ▸ List.mem_cons_self p ps)
    have hcs : c ∉ ps := fun h => hc (List.mem_cons_of_mem p h)
    rw [List.cons_append, pyReplace_cons]
    rw [if_neg (by simp [isPrefixOf_head_ne old c p _ hh hcp])]
    rw [ih hcs, List.cons_append]

theorem pyReplace_at_match (old new rest : Str) (hne : old ≠ []) :
    pyReplace old new (old ++ rest) = new ++ pyReplace old new rest := by
  cases old with
  | nil => exact absurd rfl hne
  | cons c tl =>
    rw [List.cons_append, pyReplace_cons]
    have hpf : (c :: tl).isPrefixOf (c :: (tl ++ rest)) = true := by
      simp [List.isPrefixOf, isPrefixOf_self_append]
    rw [if_pos ⟨by simp, hpf⟩]
    have hdrop : (c :: (tl ++ rest)).drop (c :: tl).length = rest := by
      have h1 : (c :: (tl ++ rest)) = (c :: tl) ++ rest := by simp
      rw [h1, List.drop_left]
    rw [hdrop]

theorem pyReplace_no_occ (old new s : Str) (c : Char) (hh : old.head? = some c)
    (hc : c ∉ s) : pyReplace old new s = s := by
  induction s with
  | nil => rfl
  | cons p ps ih =>
    have hcp : c ≠ p := fun h => hc (h ▸ List.mem_cons_self p ps)
    have hcs : c ∉ ps := fun h => hc (List.mem_cons_of_mem p h)
    rw [pyReplace_cons]
    rw [if_neg (by simp [isPrefixOf_head_ne old c p _ hh hcp])]
    rw [ih hcs]

theorem findSpansAux_none_skip (op cl : Char) (pre rest : Str) (h : op ∉ pre) :
    findSpansAux op cl none (pre ++ rest) = findSpansAux op cl none rest := by
  induction pre with
  | nil => rfl
  | cons p ps ih =>
    have hop : ¬ (p = op) := fun he => h (he ▸ List.mem_cons_self p ps)
    rw [List.cons_append]
    show (if p = op then _ else _) = _
    rw [if_neg hop]
    exact ih (fun hm => h (List.mem_cons_of_mem p hm))

theorem findSpansAux_none_nil (op cl : Char) (s : Str) (h : op ∉ s) :
    findSpansAux op cl none s = [] := by
  induction s with
  | nil => rfl
  | cons p ps ih =>
    have hop : ¬ (p = op) := fun he => h (he ▸ List.mem_cons_self p ps)
    show (if p = op then _ else _) = _
    rw [if_neg hop]
    exact ih (fun hm => h (List.mem_cons_of_mem p hm))

theorem findSpansAux_in_span (op cl : Char) (content : Str) (hne : cl ∉ content) :
    ∀ (buf rest : Str),
      findSpansAux op cl (some buf) (content ++ (cl :: rest)) =
        (op :: (buf ++ content) ++ [cl]) :: findSpansAux op cl none rest := by
  induction content with
  | nil =>
    intro buf rest
    show (if cl = cl then _ else _) = _
    rw [if_pos rfl]
    simp
  | cons d ds ih =>
    intro buf rest
    have hd : ¬ (d = cl) := fun he => hne (he ▸ List.mem_cons_self d ds)
    rw [List.cons_append]
    show (if d = cl then _ else _) = _
    rw [if_neg hd]
    rw [ih (fun hm => hne (List.mem_cons_of_mem d hm)) (buf ++ [d]) rest]
    simp

theorem findSpans_span_start (op cl : Char) (content rest : Str) (hne : cl ∉ content) :
    findSpansAux op cl none ((op :: content ++ [cl]) ++ rest) =
      (op :: content ++ [cl]) :: findSpansAux op cl none rest := by
  rw [List.cons_append]
  show (if op = op then _ else _) = _
  rw [if_pos rfl]
  simp only [List.append_eq]
  have h1 : (content ++ [cl]) ++ rest = content ++ (cl :: rest) := by simp
  rw [h1, findSpansAux_in_span op cl content hne [] rest]
  simp

theorem npUnique_single (x : Str) : npUnique [x] = [x] := by
  unfold npUnique
  have h1 : List.insertionSort (fun a b => a ≤ b) [x] = [x] := by
    simp [List.insertionSort, List.orderedInsert]
  rw [h1]
  simp

theorem npUnique_pair_same (x : Str) : npUnique [x, x] = [x] := by
  unfold npUnique
  have h1 : List.insertionSort (fun a b => a ≤ b) [x, x] = [x, x] := by
    show List.orderedInsert _ x (List.insertionSort _ [x]) = [x, x]
    have h2 : List.insertionSort (fun a b : Str => a ≤ b) [x] = [x] := by
      simp [List.insertionSort, List.orderedInsert]
    rw [h2]
    show (if x ≤ x then x :: [x] else x :: List.orderedInsert _ x []) = [x, x]
    rw [if_pos (le_refl x)]
  rw [h1]
  rw [List.dedup_cons_of_mem (List.mem_singleton.mpr rfl)]
  simp

theorem pyStrip_sqSpan (content : Str) (h : bracketFree content) :
    pyStrip [']', '['] (sqSpan content) = content := by
  cases content with
  | nil => decide
  | cons d t =>
    have hd1 : d ∉ ([']', '['] : List Char) := by
      intro hm
      rcases List.mem_cons.mp hm with he | hm2
      · exact h.2 (he ▸ List.mem_cons_self d t)
      · have : d = '[' := by simpa using hm2
        exact h.1 (this ▸ List.mem_cons_self d t)
    unfold pyStrip sqSpan
    have hfront : List.dropWhile (fun c => decide (c ∈ ([']', '['] : List Char)))
        ('[' :: (d :: t) ++ [']']) = (d :: t) ++ [']'] := by
      rw [List.cons_append, List.dropWhile_cons]
      rw [if_pos (by decide)]
      rw [List.cons_append, List.dropWhile_cons]
      rw [if_neg (by simp [hd1])]
    rw [hfront]
    cases hr : (d :: t).reverse with
    | nil => exact absurd hr (by simp)
    | cons e v =>
      have he : e ∈ (d :: t) := by
        have : e ∈ (d :: t).reverse := by rw [hr]; exact List.mem_cons_self e v
        exact List.mem_reverse.mp this
      have he1 : e ∉ ([']', '['] : List Char) := by
        intro hm
        rcases List.mem_cons.mp hm with heq | hm2
        · exact h.2 (heq ▸ he)
        · have : e = '[' := by simpa using hm2
          exact h.1 (this ▸ he)
      have hrev : ((d :: t) ++ [']']).reverse = ']' :: (d :: t).reverse := by simp
      rw [hrev, List.dropWhile_cons, if_pos (by decide)]
      rw [hr, List.dropWhile_cons, if_neg (by simp [he1])]
      rw [← hr]
      simp

theorem process_square_brackets_single (pc : PhonemeCatalog) (content s : Str)
    (hcontent : bracketFree content)
    (hfs : npUnique (findSpans '[' ']' s) = [sqSpan content]) :
    process_square_brackets s pc = pyReplace (sqSpan content) (sqCurly pc content) s := by
  unfold process_square_brackets
  rw [hfs]
  simp only [List.map_cons, List.map_nil, List.zip_cons_cons, List.zip_nil_right,
    List.foldl_cons, List.foldl_nil]
  rw [pyStrip_sqSpan content hcontent]
  rfl

/-- C7 (amended): for every catalog and every rule substring made of
bracket-free text around one or two occurrences of the same span
`[content]` (content bracket-free), descriptor-class expansion replaces
each occurrence of the span by the brace list of the transcriptions of the
phones matching the comma-separated content with `exact_match = true`, in
the catalog's phone enumeration order — not sorted order; the duplicate
span is processed once and both occurrences receive the same brace list. -/
theorem C7_amended (pc : PhonemeCatalog) (pre mid suf content : Str)
    (hpre : bracketFree pre) (hmid : bracketFree mid) (hsuf : bracketFree suf)
    (hcontent : bracketFree content) :
    process_square_brackets (pre ++ sqSpan content ++ mid ++ sqSpan content ++ suf) pc =
        pre ++ sqCurly pc content ++ mid ++ sqCurly pc content ++ suf
    ∧ process_square_brackets (pre ++ sqSpan content ++ suf) pc =
        pre ++ sqCurly pc content ++ suf := by
  have hhead : (sqSpan content).head? = some '[' := rfl
  have hne : sqSpan content ≠ [] := by simp [sqSpan]
  have hclcontent : ']' ∉ content := hcontent.2
  constructor
  · simp only [List.append_assoc]
    have hfind : findSpans '[' ']'
        (pre ++ (sqSpan content ++ (mid ++ (sqSpan content ++ suf)))) =
        [sqSpan content, sqSpan content] := by
      unfold findSpans
      rw [findSpansAux_none_skip '[' ']' pre _ hpre.1]
      show findSpansAux '[' ']' none
        (('[' :: content ++ [']']) ++ (mid ++ (sqSpan content ++ suf))) = _
      rw [findSpans_span_start '[' ']' content _ hclcontent]
      rw [findSpansAux_none_skip '[' ']' mid _ hmid.1]
      show (sqSpan content) ::
          findSpansAux '[' ']' none (('[' :: content ++ [']']) ++ suf) = _
      rw [findSpans_span_start '[' ']' content _ hclcontent]
      rw [findSpansAux_none_nil '[' ']' suf hsuf.1]
      rfl
    have hfs : npUnique (findSpans '[' ']'
        (pre ++ (sqSpan content ++ (mid ++ (sqSpan content ++ suf))))) = [sqSpan content] := by
      rw [hfind, npUnique_pair_same]
    rw [process_square_brackets_single pc content _ hcontent hfs]
    rw [pyReplace_skip _ _ pre _ '[' hhead hpre.1]
    rw [pyReplace_at_match _ _ _ hne]
    rw [pyReplace_skip _ _ mid _ '[' hhead hmid.1]
    rw [pyReplace_at_match _ _ _ hne]
    rw [pyReplace_no_occ _ _ suf '[' hhead hsuf.1]
  · simp only [List.append_assoc]
    have hfind : findSpans '[' ']' (pre ++ (sqSpan content ++ suf)) = [sqSpan content] := by
      unfold findSpans
      rw [findSpansAux_none_skip '[' ']' pre _ hpre.1]
      show findSpansAux '[' ']' none (('[' :: content ++ [']']) ++ suf) = _
      rw [findSpans_span_start '[' ']' content _ hclcontent]
      rw [findSpansAux_none_nil '[' ']' suf hsuf.1]
      rfl
    have hfs : npUnique (findSpans '[' ']' (pre ++ (sqSpan content ++ suf))) =
        [sqSpan content] := by
      rw [hfind, npUnique_single]
    rw [process_square_brackets_single pc content _ hcontent hfs]
    rw [pyReplace_skip _ _ pre _ '[' hhead hpre.1]
    rw [pyReplace_at_match _ _ _ hne]
    rw [pyReplace_no_occ _ _ suf '[' hhead hsuf.1]

/-- C7 (witness): the amended single-span statement discharged at a concrete
one-phoneme catalog and the substring `x[vowel]y`. -/
theorem C7_amended_witness :
    process_square_brackets ("x".data ++ sqSpan ("vowel".data) ++ "y".data)
        c7WitnessCatalog =
      "x".data ++ sqCurly c7WitnessCatalog ("vowel".data) ++ "y".data :=
  (C7_amended c7WitnessCatalog ("x".data) [] ("y".data) ("vowel".data)
    ⟨by decide, by decide⟩ ⟨by decide, by decide⟩ ⟨by decide, by decide⟩
    ⟨by decide, by decide⟩).2
